import Mathlib

set_option maxHeartbeats 1000000
set_option maxRecDepth 4096

namespace BOMSpitter

/-!
Shallow embedding of the quote-generation core of `fire_a_quote.py` and
`utils/fire_a_quote_utils.py`.

Cells model the dynamic pandas values flowing through `parse_items`:
Python `None`, float NaN, strings, and finite numbers.  Machine floats are
modelled as exact rationals with an explicit NaN constructor; infinities lie
outside the modelled domain (no claim involves them).
-/

/-- A Python float: a finite value (exact rational) or NaN. -/
inductive PyFloat where
  | fin (q : ℚ)
  | nan
deriving DecidableEq, Repr

/-- A spreadsheet cell value as seen by `parse_items` after the pandas read:
Python `None`, float NaN (the pandas missing marker), a string, or a finite
number. -/
inductive Cell where
  | pyNone
  | nan
  | str (s : String)
  | num (q : ℚ)
deriving DecidableEq, Repr

/- ------------------ string helpers (ASCII, kernel-reducible) ------------------ -/

def strLower (s : String) : String := ⟨s.data.map Char.toLower⟩

def isSpaceC (c : Char) : Bool := c == ' ' || c == '\t' || c == '\n' || c == '\r'

/-- Python `str.strip()`: drop whitespace at both ends. -/
def strTrim (s : String) : String :=
  ⟨((s.data.dropWhile isSpaceC).reverse.dropWhile isSpaceC).reverse⟩

/-- Header normalisation used by `_norm_cols`: `str(c).strip().lower()`. -/
def normName (s : String) : String := strLower (strTrim s)

def isPrefixL : List Char → List Char → Bool
  | [], _ => true
  | _ :: _, [] => false
  | a :: as_, b :: bs => a == b && isPrefixL as_ bs

def isSubstrL (n : List Char) : List Char → Bool
  | [] => n.isEmpty
  | c :: ls => isPrefixL n (c :: ls) || isSubstrL n ls

/-- Python `n in c` on strings: substring containment. -/
def substrIn (n c : String) : Bool := isSubstrL n.data c.data

/-- Python `s.replace(ch, "")` for a one-character pattern: remove every
occurrence of the character. -/
def removeChar (ch : Char) (s : String) : String := ⟨s.data.filter (fun c => c != ch)⟩

def isDigitC (c : Char) : Bool := '0' ≤ c && c ≤ '9'

def digitsVal (l : List Char) : ℕ := l.foldl (fun a c => 10 * a + (c.toNat - 48)) 0

/- ------------------ Python float() on strings ------------------ -/

/-- Parse an unsigned decimal mantissa `digits[.digits]`, returning its value
and the unconsumed characters; fails if no digit is present. -/
def parseMantissa (l : List Char) : Option (ℚ × List Char) :=
  let d := l.takeWhile isDigitC
  let r1 := l.dropWhile isDigitC
  match r1 with
  | '.' :: r2 =>
    let f := r2.takeWhile isDigitC
    let r3 := r2.dropWhile isDigitC
    if d.isEmpty && f.isEmpty then none
    else some (((digitsVal (d ++ f) : ℚ)) / (10 : ℚ) ^ f.length, r3)
  | _ => if d.isEmpty then none else some ((digitsVal d : ℚ), r1)

/-- Model of Python `float(s)` on an already trimmed and lowercased string:
optional sign, `nan`, or a decimal with optional exponent.  Infinities are
outside the modelled domain and fail to parse here. -/
def parseFloatChars (l : List Char) : Option PyFloat :=
  let sl : Bool × List Char :=
    match l with
    | '+' :: r => (false, r)
    | '-' :: r => (true, r)
    | _ => (false, l)
  let neg := sl.1
  let l1 := sl.2
  if l1 = ['n', 'a', 'n'] then some .nan
  else
    match parseMantissa l1 with
    | none => none
    | some (m, rest) =>
      match rest with
      | [] => some (.fin (if neg then -m else m))
      | 'e' :: r =>
        let er : Bool × List Char :=
          match r with
          | '+' :: rr => (false, rr)
          | '-' :: rr => (true, rr)
          | _ => (false, r)
        let ds := er.2.takeWhile isDigitC
        let r2 := er.2.dropWhile isDigitC
        if ds.isEmpty || !r2.isEmpty then none
        else
          let ex : ℤ := if er.1 then -(digitsVal ds : ℤ) else (digitsVal ds : ℤ)
          some (.fin ((if neg then -m else m) * (10 : ℚ) ^ ex))
      | _ => none

/-- Python `float(s)`: strips surrounding whitespace and is case-insensitive. -/
def pyParseFloat (s : String) : Option PyFloat :=
  parseFloatChars (strLower (strTrim s)).data

/- ------------------ str() rendering of cells ------------------ -/

/-- Decimal expansion digits of `rem/den`, up to the given fuel (Python reprs
of floats carry at most 17 significant digits; floats are dyadic so their
expansions terminate). -/
def fracDigitsAux : ℕ → ℕ → ℕ → List Char
  | 0, _, _ => []
  | _ + 1, 0, _ => []
  | fuel + 1, rem, den =>
    let r10 := rem * 10
    Char.ofNat (48 + r10 / den) :: fracDigitsAux fuel (r10 % den) den

/-- Python `str` of a float: integral part, a dot, then the fractional digits
(`str(5.0)` is `"5.0"`). -/
def numRepr (q : ℚ) : String :=
  let n := q.num.natAbs
  let d := q.den
  let ip := n / d
  let rem := n % d
  let fr := if rem = 0 then ['0'] else fracDigitsAux 17 rem d
  ⟨(if q < 0 then ['-'] else []) ++ (Nat.repr ip).data ++ '.' :: fr⟩

/-- Python `str(x)` on a cell value (`str(None) = "None"`,
`str(float("nan")) = "nan"`). -/
def pyStr : Cell → String
  | .pyNone => "None"
  | .nan => "nan"
  | .str s => s
  | .num q => numRepr q

/- ------------------ fire_a_quote_utils ------------------ -/

/-- `_num(x)`: `float(str(x).replace(",", "").replace("$", ""))`, `None` on
failure.  `str` of `None` is `"None"` (unparsable, so `None` results); a NaN
cell renders `"nan"` which `float` parses back to NaN; a numeric cell
round-trips exactly. -/
def _num : Cell → Option PyFloat
  | .pyNone => none
  | .nan => some .nan
  | .num q => some (.fin q)
  | .str s => pyParseFloat (removeChar '$' (removeChar ',' s))

/-- pandas `isna` on a scalar cell: `None` and NaN are missing. -/
def isNA : Cell → Bool
  | .pyNone => true
  | .nan => true
  | .str _ => false
  | .num _ => false

/-- pandas `notna` on a scalar cell. -/
def notna (c : Cell) : Bool := !(isNA c)

/-- A data frame: a header row and positionally aligned data rows. -/
structure DF where
  cols : List String
  rows : List (List Cell)
deriving DecidableEq, Repr

/-- `_norm_cols`: lower-case and strip every column header (rows untouched). -/
def _norm_cols (df : DF) : DF := ⟨df.cols.map normName, df.rows⟩

/-- `df.dropna(how="all")`: drop rows whose cells are all missing. -/
def dropna_all (df : DF) : DF := ⟨df.cols, df.rows.filter (fun r => !(r.all isNA))⟩

/-- `_pick(df, names)`: first pass returns the first candidate name that is
itself a column; second pass returns the first column containing a candidate
as a substring; only the header row of the frame is consulted. -/
def _pick (cols : List String) (names : List String) : Option String :=
  match names.find? (fun n => cols.contains n) with
  | some n => some n
  | none => names.findSome? (fun n => cols.find? (fun c => substrIn n c))

/-- Label-based row access `r.get(c)` (the Series index is the column list):
the cell at the first position whose label equals `c`, `None` when absent. -/
def dfGet : List String → List Cell → String → Cell
  | [], _, _ => .pyNone
  | _ :: _, [], _ => .pyNone
  | c0 :: cs, x :: xs, c => if c0 = c then x else dfGet cs xs c

/- ------------------ CANDIDATES ------------------ -/

def sku_candidates : List String :=
  ["sku", "part", "item", "product", "pn", "part number", "mpn", "partner sku"]
def qty_candidates : List String := ["qty", "quantity", "qnty", "q\x27ty"]
def description_candidates : List String :=
  ["description", "desc", "product description", "item description"]
def unit_price_candidates : List String :=
  ["unit price", "price", "list price", "unitprice", "price ea", "each"]
def discount_candidates : List String := ["discount"]
def discount_price_candidates : List String :=
  ["discount price", "discounted price", "sell price", "your price", "net price"]
def extended_candidates : List String :=
  ["extended", "extended price", "ext", "subtotal", "line total", "amount"]
def notes_candidates : List String := ["notes", "note", "comments", "line notes"]
def category_candidates : List String :=
  ["product type", "category", "product category", "type"]
def start_date_candidates : List String :=
  ["start date", "start", "service start", "begin", "term start"]
def end_date_candidates : List String :=
  ["end date", "end", "service end", "finish", "term end"]

/-- The column picks computed at the top of `parse_items`
(`col_sku` .. `col_cat`); the "extended" family is never picked on purpose. -/
structure Picks where
  col_sku : Option String
  col_qty : Option String
  col_desc : Option String
  col_your : Option String
  col_list : Option String
  col_disc : Option String
  col_start : Option String
  col_end : Option String
  col_note : Option String
  col_cat : Option String
deriving DecidableEq, Repr

def mkPicks (cols : List String) : Picks :=
  ⟨_pick cols (sku_candidates.map strLower),
   _pick cols (qty_candidates.map strLower),
   _pick cols (description_candidates.map strLower),
   _pick cols (discount_price_candidates.map strLower),
   _pick cols (unit_price_candidates.map strLower),
   _pick cols (discount_candidates.map strLower),
   _pick cols (start_date_candidates.map strLower),
   _pick cols (end_date_candidates.map strLower),
   _pick cols (notes_candidates.map strLower),
   _pick cols (category_candidates.map strLower)⟩

/- ------------------ float arithmetic (NaN-propagating) ------------------ -/

def pyAdd : PyFloat → PyFloat → PyFloat
  | .fin a, .fin b => .fin (a + b)
  | _, _ => .nan

def pySub : PyFloat → PyFloat → PyFloat
  | .fin a, .fin b => .fin (a - b)
  | _, _ => .nan

def pyMul : PyFloat → PyFloat → PyFloat
  | .fin a, .fin b => .fin (a * b)
  | _, _ => .nan

/-- Float division; the code only divides by a nonzero quantity, so the
rational division here is exact on every reachable input. -/
def pyDiv : PyFloat → PyFloat → PyFloat
  | .fin a, .fin b => .fin (a / b)
  | _, _ => .nan

/-- Python `int()` on a finite float: truncation toward zero
(`Int.div` is T-division). -/
def pyTrunc (q : ℚ) : ℤ := Int.tdiv q.num (q.den : ℤ)

/- ------------------ _fmt_date ------------------ -/

/-- Proleptic-Gregorian date for a day count from the Unix epoch
(civil-from-days). -/
def civilFromDays (z0 : ℤ) : ℤ × ℕ × ℕ :=
  let z := z0 + 719468
  let era : ℤ := z.ediv 146097
  let doe : ℕ := (z.emod 146097).toNat
  let yoe : ℕ := (doe - doe / 1460 + doe / 36524 - doe / 146096) / 365
  let y0 : ℤ := (yoe : ℤ) + era * 400
  let doy : ℕ := doe - (365 * yoe + yoe / 4 - yoe / 100)
  let mp : ℕ := (5 * doy + 2) / 153
  let d : ℕ := doy - (153 * mp + 2) / 5 + 1
  let m : ℕ := if mp < 10 then mp + 3 else mp - 9
  (y0 + (if m ≤ 2 then 1 else 0), m, d)

def padZeros (w : ℕ) (s : String) : String :=
  ⟨List.replicate (w - s.data.length) '0' ++ s.data⟩

/-- `strftime("%Y-%m-%d")`: zero-padded ISO date. -/
def isoOfYMD (y : ℤ) (m d : ℕ) : String :=
  padZeros 4 (Nat.repr y.toNat) ++ "-" ++ padZeros 2 (Nat.repr m) ++ "-" ++ padZeros 2 (Nat.repr d)

/-- pandas `Timestamp` bounds, to day precision: serial conversions outside
1677-09-21 .. 2262-04-11 raise OutOfBoundsDatetime and fall through. -/
def serialInBounds (z : ℤ) : Bool := decide (-106752 ≤ z) && decide (z ≤ 106751)

def isSepC (c : Char) : Bool := c == '-' || c == '/'

def splitSeps : List Char → List (List Char)
  | [] => [[]]
  | c :: rest =>
    let r := splitSeps rest
    if isSepC c then [] :: r
    else
      match r with
      | [] => [[c]]
      | h :: t => (c :: h) :: t

/-- Model of the general date-string parsing performed by the pandas
`to_datetime(s, dayfirst=False)` call in `_fmt_date`, restricted to plain
numeric year-month-day and month-first month/day/year forms within the
`Timestamp` year range. -/
def parseDateString (s : String) : Option (ℤ × ℕ × ℕ) :=
  match splitSeps s.data with
  | [a, b, c] =>
    if !a.isEmpty && !b.isEmpty && !c.isEmpty
        && a.all isDigitC && b.all isDigitC && c.all isDigitC then
      if a.length = 4 then
        let y := digitsVal a
        let m := digitsVal b
        let d := digitsVal c
        if 1677 ≤ y && y ≤ 2262 && 1 ≤ m && m ≤ 12 && 1 ≤ d && d ≤ 31 then
          some ((y : ℤ), m, d)
        else none
      else
        let m := digitsVal a
        let d := digitsVal b
        let y := digitsVal c
        if c.length = 4 && 1677 ≤ y && y ≤ 2262 && 1 ≤ m && m ≤ 12 && 1 ≤ d && d ≤ 31 then
          some ((y : ℤ), m, d)
        else none
    else none
  | _ => none

/-- `_fmt_date(v)`: empty string for `None`, NaN, or blank strings; numbers
are Excel serial dates (days from origin 1899-12-30, i.e. epoch day
`floor(v) - 25569`) when within `Timestamp` bounds, else they fall through to
the string branch; strings are parsed as dates when possible and otherwise
returned stripped of surrounding whitespace (`s = str(v).strip()` precedes
every string-branch return). -/
def _fmt_date (v : Cell) : String :=
  match v with
  | .pyNone => ""
  | .nan => ""
  | .num q =>
    let z : ℤ := ⌊q⌋ - 25569
    if serialInBounds z then
      let ymd := civilFromDays z
      isoOfYMD ymd.1 ymd.2.1 ymd.2.2
    else
      -- the numeric rendering `str(v)` never parses as a date string
      strTrim (numRepr q)
  | .str s0 =>
    if strTrim s0 = "" then ""
    else
      let s := strTrim s0
      match parseDateString s with
      | some ymd => isoOfYMD ymd.1 ymd.2.1 ymd.2.2
      | none => s

/- ------------------ row derivation (parse_items body) ------------------ -/

/-- The derived line item appended by `parse_items`. -/
structure Item where
  pt_sku : String
  qty : ℕ
  description : String
  list_price : Option PyFloat
  unit_price : PyFloat
  subtotal : PyFloat
  notes : String
  category : String
  start_date : String
  end_date : String
deriving DecidableEq, Repr

/-- Outcome of processing one row: skipped, a raised TypeError (aborting the
whole call), or one appended item. -/
inductive RowResult where
  | skip
  | raiseTypeError
  | item (it : Item)
deriving DecidableEq, Repr

/-- `(str(r.get(col)) if col else "").strip()`. -/
def cellStrOf (c? : Option Cell) : String :=
  strTrim (match c? with | some c => pyStr c | none => "")

/-- `not s or s.lower() == "nan"`. -/
def blankOrNanStr (s : String) : Bool := s == "" || strLower s == "nan"

/-- `isinstance(v, str) and v.strip().lower() == "totals"`. -/
def isTotalsCell : Cell → Bool
  | .str s => strLower (strTrim s) == "totals"
  | _ => false

/-- `qty = _num(r.get(col_qty)) if col_qty else 1` followed by
`qty = int(qty) if qty and qty > 0 else 1`: `None`, NaN (`nan > 0` is false),
zero and negatives default to 1; a positive float is truncated by `int`. -/
def qtyOf (qcell : Option Cell) : ℕ :=
  match qcell with
  | none => 1
  | some c =>
    match _num c with
    | none => 1
    | some .nan => 1
    | some (.fin q) => if 0 < q then (pyTrunc q).toNat else 1

/-- `disc or 0` where `disc = _num(r.get(col_disc)) if col_disc else 0`:
`None` becomes 0, a falsy 0.0 stays 0.0, NaN is truthy and survives. -/
def discEff (dcell : Option Cell) : PyFloat :=
  match dcell with
  | none => .fin 0
  | some c =>
    match _num c with
    | none => .fin 0
    | some .nan => .nan
    | some (.fin q) => .fin q

/-- The primary/fallback price derivation (lines 166-185): the
`discount_price` family value is the line total when it is a non-NaN number;
otherwise the `unit_price` family value (even a NaN one) is discounted, and
failing both the prices are zero.  Returns `(unit_price, extended)`. -/
def pricesOf (qty : ℕ) (ycell lcell dcell : Option Cell) : PyFloat × PyFloat :=
  match (match ycell with | some c => _num c | none => none) with
  | some (.fin v) =>
    (if qty ≠ 0 then pyDiv (.fin v) (.fin (qty : ℚ)) else .fin v, .fin v)
  | _ =>
    match (match lcell with | some c => _num c | none => none) with
    | some lp =>
      let u := pyMul lp (pySub (.fin 1) (discEff dcell))
      (u, pyMul u (.fin (qty : ℚ)))
    | none => (.fin 0, .fin 0)

/-- The `list_price` field of the appended dict:
`float(_num(r.get(col_list))) if col_list and pd.notna(r.get(col_list)) else None`.
When the cell is present but `_num` fails, `float(None)` raises TypeError. -/
def listFieldOf (lcell : Option Cell) : Except Unit (Option PyFloat) :=
  match lcell with
  | none => .ok none
  | some c =>
    if notna c then
      match _num c with
      | some v => .ok (some v)
      | none => .error ()
    else .ok none

/-- `str(r.get(col)).strip() if col and pd.notna(r.get(col)) else ""`
(used for both notes and category). -/
def noteValOf (c? : Option Cell) : String :=
  match c? with
  | some c => if notna c then strTrim (pyStr c) else ""
  | none => ""

/-- The dict appended at lines 192-206, given the cells of the picked columns
and the already computed `list_price` field value. -/
def rowItem (skuC descC qtyC yourC listC discC noteC catC startC endC : Option Cell)
    (lp : Option PyFloat) : Item :=
  let sku := cellStrOf skuC
  let desc := cellStrOf descC
  let qty := qtyOf qtyC
  let prices := pricesOf qty yourC listC discC
  ⟨(if strLower sku == "nan" then "" else sku), qty,
   (if strLower desc == "nan" then "" else desc), lp,
   prices.1, prices.2,
   noteValOf noteC, noteValOf catC,
   (match startC with | some c => _fmt_date c | none => ""),
   (match endC with | some c => _fmt_date c | none => "")⟩

/-- The body of the `parse_items` row loop (lines 150-206), as a function of
the first-column cell and the cells of the ten picked columns (`none` when
the column did not resolve). -/
def deriveRowCore (firstCell : Cell)
    (skuC descC qtyC yourC listC discC noteC catC startC endC : Option Cell) :
    RowResult :=
  if blankOrNanStr (cellStrOf skuC) && blankOrNanStr (cellStrOf descC) then .skip
  else if isTotalsCell firstCell then .skip
  else
    match listFieldOf listC with
    | .error _ => .raiseTypeError
    | .ok lp =>
      .item (rowItem skuC descC qtyC yourC listC discC noteC catC startC endC lp)

/-- The row loop applied to a row of the (normalised, dropna-filtered) frame. -/
def deriveRow (cols : List String) (p : Picks) (r : List Cell) : RowResult :=
  deriveRowCore (dfGet cols r (cols.headD ""))
    (p.col_sku.map (dfGet cols r)) (p.col_desc.map (dfGet cols r))
    (p.col_qty.map (dfGet cols r)) (p.col_your.map (dfGet cols r))
    (p.col_list.map (dfGet cols r)) (p.col_disc.map (dfGet cols r))
    (p.col_note.map (dfGet cols r)) (p.col_cat.map (dfGet cols r))
    (p.col_start.map (dfGet cols r)) (p.col_end.map (dfGet cols r))

/-- One step of the accumulation of the row loop: an already raised
TypeError propagates, a skip leaves the accumulator, an item is appended. -/
def parseStep (cols : List String) (p : Picks) (acc : Except Unit (List Item))
    (r : List Cell) : Except Unit (List Item) :=
  match acc with
  | .error e => .error e
  | .ok its =>
    match deriveRow cols p r with
    | .skip => .ok its
    | .raiseTypeError => .error ()
    | .item it => .ok (its ++ [it])

/-- `parse_items(df_raw)`: normalise headers, drop all-missing rows, resolve
the column picks once, then run the row loop; a raised TypeError aborts the
whole call (modelled as `Except.error`). -/
def parse_items (df_raw : DF) : Except Unit (List Item) :=
  let df := dropna_all (_norm_cols df_raw)
  if df.rows.isEmpty then .ok []
  else df.rows.foldl (parseStep df.cols (mkPicks df.cols)) (.ok [])

/- ------------------ quote counter ------------------ -/

/-- `re.search(r"(\d+)", raw)`: the first maximal run of digits, as a number. -/
def extractFirstDigits (s : String) : Option ℕ :=
  match s.data.dropWhile (fun c => !(isDigitC c)) with
  | [] => none
  | l => some (digitsVal (l.takeWhile isDigitC))

/-- The read phase of `pop_and_increment_quote_number`: the persisted file is
modelled as `Option String` (`none` when absent); absent, empty, or digitless
content reads as 1. -/
def read_counter (st : Option String) : ℕ :=
  match st with
  | none => 1
  | some raw =>
    let r := strTrim raw
    if r = "" then 1
    else
      match extractFirstDigits r with
      | some n => n
      | none => 1

/-- `pop_and_increment_quote_number`: returns the issued identifier and the
newly persisted file content (`str(current + 1)` is written before the
function returns). -/
def pop_and_increment_quote_number (st : Option String) (pfx : String := "Q-") :
    String × Option String :=
  let current := read_counter st
  (pfx ++ Nat.repr current, some (Nat.repr (current + 1)))

/- ------------------ category grouping and totals (main) ------------------ -/

/-- `_cat_name(v)`: `(v or "").strip()`, blank becoming `"Uncategorized"`. -/
def catName (v : String) : String :=
  let s := strTrim v
  if s = "" then "Uncategorized" else s

/-- First-seen order of normalised categories (the `ordered_categories` /
`seen` loop; the seen set always holds exactly the listed categories). -/
def orderedCategories (items : List Item) : List String :=
  items.foldl
    (fun acc it =>
      let c := catName it.category
      if acc.contains c then acc else acc ++ [c]) []

structure Group where
  category : String
  items : List Item
  subtotal : PyFloat
deriving DecidableEq, Repr

/-- `it.get("subtotal") or 0.0`: a falsy 0.0 maps to 0.0 and every other
float (NaN is truthy) to itself, so this is the identity on the model. -/
def pyOrZero (x : PyFloat) : PyFloat := x

/-- `groups[c]["items"].append(it); groups[c]["subtotal"] += float(... or 0.0)`. -/
def addToGroup (gs : List Group) (c : String) (it : Item) : List Group :=
  gs.map (fun g =>
    if g.category = c then
      ⟨g.category, g.items ++ [it], pyAdd g.subtotal (pyOrZero it.subtotal)⟩
    else g)

/-- The grouping pass of `main` (lines 315-338). -/
def items_by_category (items : List Item) : List Group :=
  items.foldl (fun gs it => addToGroup gs (catName it.category) it)
    ((orderedCategories items).map (fun c => ⟨c, [], .fin 0⟩))

def finPart : PyFloat → Option ℚ
  | .fin q => some q
  | .nan => none

/-- `np.nansum`: NaN entries are skipped; the empty sum is 0.0. -/
def nansum (l : List PyFloat) : PyFloat := .fin (l.filterMap finPart).sum

/-- `bom_total = float(np.nansum([i["subtotal"] for i in items])) if items else 0.0`. -/
def bom_total (items : List Item) : PyFloat :=
  if items.isEmpty then .fin 0 else nansum (items.map Item.subtotal)

/-- Plain float summation (NaN-propagating), used to state the claimed
equalities between the grand total and the per-group and per-item sums. -/
def pySum (l : List PyFloat) : PyFloat := l.foldl pyAdd (.fin 0)

/- ------------------ helper lemmas ------------------ -/

instance {ε α : Type} [DecidableEq ε] [DecidableEq α] : DecidableEq (Except ε α) :=
  fun a b =>
    match a, b with
    | .ok x, .ok y =>
      match decEq x y with
      | isTrue h => isTrue (by rw [h])
      | isFalse h => isFalse (fun hh => h (Except.ok.inj hh))
    | .error x, .error y =>
      match decEq x y with
      | isTrue h => isTrue (by rw [h])
      | isFalse h => isFalse (fun hh => h (Except.error.inj hh))
    | .ok _, .error _ => isFalse (fun hh => Except.noConfusion hh)
    | .error _, .ok _ => isFalse (fun hh => Except.noConfusion hh)

/-- Truncation toward zero agrees with the floor on nonnegative rationals. -/
theorem pyTrunc_eq_floor {q : ℚ} (hq : 0 ≤ q) : pyTrunc q = ⌊q⌋ := by
  have hnum : 0 ≤ q.num := Rat.num_nonneg.mpr hq
  have hden : (0 : ℤ) ≤ (q.den : ℤ) := Int.ofNat_nonneg q.den
  rw [pyTrunc, Int.tdiv_eq_ediv hnum hden, Rat.floor_def]

/-- Inversion for the row loop: landing in the `.item` case determines every
field from the cells. -/
theorem deriveRowCore_item_eq {fc : Cell}
    {skuC descC qtyC yourC listC discC noteC catC startC endC : Option Cell}
    {it : Item}
    (h : deriveRowCore fc skuC descC qtyC yourC listC discC noteC catC startC endC
          = .item it) :
    ∃ lp, listFieldOf listC = .ok lp ∧
      it = rowItem skuC descC qtyC yourC listC discC noteC catC startC endC lp := by
  unfold deriveRowCore at h
  split at h
  · exact absurd h (fun hh => RowResult.noConfusion hh)
  · split at h
    · exact absurd h (fun hh => RowResult.noConfusion hh)
    · split at h
      · exact absurd h (fun hh => RowResult.noConfusion hh)
      · rename_i lp heq
        exact ⟨lp, heq, (RowResult.item.inj h).symm⟩

/-- The qty cell of a row whose qty column resolved. -/
theorem rowItem_qty {skuC descC qtyC yourC listC discC noteC catC startC endC : Option Cell}
    {lp : Option PyFloat} :
    (rowItem skuC descC qtyC yourC listC discC noteC catC startC endC lp).qty
      = qtyOf qtyC := rfl

theorem deriveRow_item_qty {cols : List String} {p : Picks} {r : List Cell}
    {it : Item} (h : deriveRow cols p r = .item it) :
    it.qty = qtyOf (p.col_qty.map (dfGet cols r)) := by
  obtain ⟨lp, _, hit⟩ := deriveRowCore_item_eq h
  rw [hit, rowItem_qty]

/- ------------------ Claim C2 ------------------ -/

/-- Claim C2: `pop_and_increment_quote_number` returns the prefixed
pre-increment value of the persisted counter (1 when the file is absent or
unparsable) and persists its successor; starting from a missing or empty
counter file, two successive calls return `"Q-1"` then `"Q-2"`. -/
theorem claim_C2_counter :
    (∀ st : Option String,
      (pop_and_increment_quote_number st).1 = "Q-" ++ Nat.repr (read_counter st) ∧
      (pop_and_increment_quote_number st).2 = some (Nat.repr (read_counter st + 1))) ∧
    (pop_and_increment_quote_number none).1 = "Q-1" ∧
    (pop_and_increment_quote_number ((pop_and_increment_quote_number none).2)).1 = "Q-2" ∧
    (pop_and_increment_quote_number (some "")).1 = "Q-1" ∧
    (pop_and_increment_quote_number ((pop_and_increment_quote_number (some "")).2)).1 = "Q-2" :=
  ⟨fun _ => ⟨rfl, rfl⟩, rfl, rfl, rfl, rfl⟩

/- ------------------ Claim C10 ------------------ -/

/-- Claim C10: a qty cell parsing to a finite value `q ≥ 1` derives the
integer part of `q` (truncation toward zero, which is the floor here), not a
rounding. -/
theorem claim_C10_qty_truncation (cols : List String) (p : Picks) (r : List Cell)
    (c : String) (q : ℚ) (it : Item)
    (hc : p.col_qty = some c) (hn : _num (dfGet cols r c) = some (.fin q))
    (h1 : 1 ≤ q) (hit : deriveRow cols p r = .item it) :
    it.qty = (⌊q⌋).toNat := by
  have hq := deriveRow_item_qty hit
  rw [hc] at hq
  simp only [Option.map_some'] at hq
  rw [hq, qtyOf, hn]
  have h0 : 0 < q := lt_of_lt_of_le one_pos h1
  simp only [h0, if_pos]
  rw [pyTrunc_eq_floor (le_of_lt h0)]

/-- Witness for C10: a qty cell reading `"2.9"` derives qty 2. -/
theorem claim_C10_qty_truncation_witness :
    (⟨"A", 2, "", none, .fin 0, .fin 0, "", "", "", ""⟩ : Item).qty = ((⌊(29 / 10 : ℚ)⌋).toNat) :=
  claim_C10_qty_truncation ["sku", "qty"] (mkPicks ["sku", "qty"])
    [Cell.str "A", Cell.str "2.9"] "qty" (29 / 10)
    ⟨"A", 2, "", none, .fin 0, .fin 0, "", "", "", ""⟩
    rfl (by with_unfolding_all rfl) (by norm_num) (by with_unfolding_all rfl)

/- ------------------ Claim C5 ------------------ -/

/-- Claim C5 (amended): for a row that is not skipped, a qty cell that is
missing, non-numeric, NaN, zero, or negative derives qty 1, and a finite
value `q ≥ 1` derives the truncation of `q`, which is at least 1; however a
finite value strictly between 0 and 1 derives qty 0, so the derived qty is
not an integer at least 1 in every case. -/
theorem claim_C5_qty_default (cols : List String) (p : Picks) (r : List Cell)
    (it : Item) (h : deriveRow cols p r = .item it) :
    (p.col_qty = none → it.qty = 1) ∧
    (∀ c, p.col_qty = some c → _num (dfGet cols r c) = none → it.qty = 1) ∧
    (∀ c, p.col_qty = some c → _num (dfGet cols r c) = some .nan → it.qty = 1) ∧
    (∀ c q, p.col_qty = some c → _num (dfGet cols r c) = some (.fin q) → q ≤ 0 →
      it.qty = 1) ∧
    (∀ c q, p.col_qty = some c → _num (dfGet cols r c) = some (.fin q) → 1 ≤ q →
      1 ≤ it.qty) ∧
    (∀ c q, p.col_qty = some c → _num (dfGet cols r c) = some (.fin q) →
      0 < q → q < 1 → it.qty = 0) := by
  have hq := deriveRow_item_qty h
  refine ⟨?_, ?_, ?_, ?_, ?_, ?_⟩
  · intro hc; rw [hc] at hq; simpa [qtyOf] using hq
  · intro c hc hn; rw [hc] at hq
    simp only [Option.map_some'] at hq
    rw [hq, qtyOf, hn]
  · intro c hc hn; rw [hc] at hq
    simp only [Option.map_some'] at hq
    rw [hq, qtyOf, hn]
  · intro c q hc hn hle; rw [hc] at hq
    simp only [Option.map_some'] at hq
    rw [hq, qtyOf, hn]
    show (if 0 < q then (pyTrunc q).toNat else 1) = 1
    rw [if_neg (not_lt.mpr hle)]
  · intro c q hc hn h1
    have := claim_C10_qty_truncation cols p r c q it hc hn h1 h
    rw [this]
    have : (1 : ℤ) ≤ ⌊q⌋ := Int.le_floor.mpr (by exact_mod_cast h1)
    omega
  · intro c q hc hn h0 hlt; rw [hc] at hq
    simp only [Option.map_some'] at hq
    rw [hq, qtyOf, hn]
    simp only [h0, if_pos]
    rw [pyTrunc_eq_floor (le_of_lt h0)]
    have hf0 : ⌊q⌋ = 0 := Int.floor_eq_zero_iff.mpr ⟨le_of_lt h0, hlt⟩
    rw [hf0]; rfl

def c5_df : DF := ⟨["sku", "qty"], [[Cell.str "A", Cell.str "0.5"]]⟩

def c5_item : Item := ⟨"A", 0, "", none, .fin 0, .fin 0, "", "", "", ""⟩

/-- Counterexample for C5 as stated: a row whose qty cell reads `"0.5"` is
not skipped yet derives qty 0, not an integer greater than or equal to 1. -/
theorem claim_C5_counterexample :
    parse_items c5_df = .ok [c5_item] ∧ c5_item.qty = 0 :=
  ⟨by with_unfolding_all rfl, rfl⟩

/-- Witness for C5: a missing qty column derives qty 1. -/
theorem claim_C5_qty_default_witness :
    (⟨"A", 1, "", none, .fin 0, .fin 0, "", "", "", ""⟩ : Item).qty = 1 :=
  (claim_C5_qty_default ["sku"] (mkPicks ["sku"]) [Cell.str "A"]
    ⟨"A", 1, "", none, .fin 0, .fin 0, "", "", "", ""⟩ rfl).1 rfl

/- ------------------ Claim C6 ------------------ -/

/-- Claim C6 (amended): the date normalizer maps the serial 44197 to
`"2021-01-01"`, maps `None`, NaN, and blank or whitespace-only strings to the
empty string, and returns any string that fails all parsing attempts stripped
of surrounding whitespace but otherwise unchanged, never raising. -/
theorem claim_C6_date_normalizer :
    _fmt_date (Cell.num 44197) = "2021-01-01" ∧
    _fmt_date Cell.pyNone = "" ∧
    _fmt_date Cell.nan = "" ∧
    (∀ s, strTrim s = "" → _fmt_date (Cell.str s) = "") ∧
    (∀ s, strTrim s ≠ "" → parseDateString (strTrim s) = none →
      _fmt_date (Cell.str s) = strTrim s) ∧
    _fmt_date (Cell.str "not a date") = "not a date" := by
  refine ⟨by with_unfolding_all rfl, rfl, rfl, ?_, ?_, by with_unfolding_all rfl⟩
  · intro s hs
    simp only [_fmt_date]
    rw [if_pos hs]
  · intro s hs hp
    simp only [_fmt_date]
    rw [if_neg hs, hp]

/-- Counterexample for C6 as stated: a padded unparsable string is not
returned unchanged; the surrounding whitespace is stripped. -/
theorem claim_C6_counterexample :
    _fmt_date (Cell.str " not a date ") ≠ " not a date " := by
  with_unfolding_all decide

/-- Witness for C6: a whitespace-only string maps to the empty string and a
padded unparsable string comes back stripped. -/
theorem claim_C6_date_normalizer_witness :
    _fmt_date (Cell.str "   ") = "" ∧ _fmt_date (Cell.str " zzz ") = strTrim " zzz " :=
  ⟨claim_C6_date_normalizer.2.2.2.1 "   " (by with_unfolding_all rfl),
   claim_C6_date_normalizer.2.2.2.2.1 " zzz " (by with_unfolding_all decide)
     (by with_unfolding_all rfl)⟩

/- ------------------ Claim C4 ------------------ -/

def c4_df : DF := ⟨["description", "price"], [[Cell.str "A", Cell.str "abc"]]⟩

/-- Claim C4 (code evaluated at the failing input): a row whose resolved
unit-price column holds the non-null unparsable text `"abc"` makes
`parse_items` raise a TypeError (`float(None)` at the `list_price` retention)
instead of contributing a zero-value line. -/
theorem claim_C4_raises : parse_items c4_df = .error () := by
  with_unfolding_all rfl

/- ------------------ Claim C7 ------------------ -/

/-- Claim C7 (amended): a row is skipped exactly when both its resolved sku
and description values render (via Python `str`) to a blank string or
`"nan"` — which covers blank strings and NaN cells but not `None` cells,
whose rendering is `"None"` — or when its first-column value is a string
equal to `"totals"` case-insensitively; every other row yields exactly one
item unless the `list_price` retention raises. -/
theorem claim_C7_skip_rule (cols : List String) (p : Picks) (r : List Cell) :
    (deriveRow cols p r = .skip ↔
      ((blankOrNanStr (cellStrOf (p.col_sku.map (dfGet cols r))) ∧
        blankOrNanStr (cellStrOf (p.col_desc.map (dfGet cols r)))) ∨
       isTotalsCell (dfGet cols r (cols.headD "")))) ∧
    (deriveRow cols p r ≠ .skip →
      deriveRow cols p r = .raiseTypeError ∨ ∃ it, deriveRow cols p r = .item it) := by
  constructor
  · unfold deriveRow deriveRowCore
    by_cases h1 : (blankOrNanStr (cellStrOf (p.col_sku.map (dfGet cols r)))
        && blankOrNanStr (cellStrOf (p.col_desc.map (dfGet cols r)))) = true
    · rw [if_pos h1]
      simp only [Bool.and_eq_true] at h1
      exact ⟨fun _ => Or.inl h1, fun _ => rfl⟩
    · rw [if_neg h1]
      by_cases h2 : isTotalsCell (dfGet cols r (cols.headD "")) = true
      · rw [if_pos h2]
        exact ⟨fun _ => Or.inr h2, fun _ => rfl⟩
      · rw [if_neg h2]
        constructor
        · intro hskip
          cases hl : listFieldOf (p.col_list.map (dfGet cols r)) with
          | error e =>
            rw [hl] at hskip
            exact absurd hskip (fun hh => RowResult.noConfusion hh)
          | ok lp =>
            rw [hl] at hskip
            exact absurd hskip (fun hh => RowResult.noConfusion hh)
        · intro hor
          rcases hor with ⟨ha, hb⟩ | hc
          · exact absurd (by rw [ha, hb]; rfl) h1
          · exact absurd hc h2
  · intro hne
    cases hd : deriveRow cols p r with
    | skip => exact absurd hd hne
    | raiseTypeError => exact Or.inl rfl
    | item it => exact Or.inr ⟨it, rfl⟩

def c7_row : List Cell := [Cell.pyNone, Cell.pyNone, Cell.str "X"]

def c7_df : DF := ⟨["sku", "description", "category"], [c7_row]⟩

def c7_item : Item := ⟨"None", 1, "None", none, .fin 0, .fin 0, "", "X", "", ""⟩

/-- Counterexample for C7 as stated: a row whose resolved sku and description
cells are both absent (Python `None`) is not excluded; `str(None)` renders
`"None"` and the row yields an item. -/
theorem claim_C7_counterexample :
    isNA (dfGet c7_df.cols c7_row "sku") = true ∧
    isNA (dfGet c7_df.cols c7_row "description") = true ∧
    parse_items c7_df = .ok [c7_item] :=
  ⟨by decide, by decide, by with_unfolding_all rfl⟩

/-- Witness for C7: a row whose first column reads `"Totals"` is skipped. -/
theorem claim_C7_skip_rule_witness :
    deriveRow ["sku"] (mkPicks ["sku"]) [Cell.str "Totals"] = .skip :=
  (claim_C7_skip_rule ["sku"] (mkPicks ["sku"]) [Cell.str "Totals"]).1.mpr
    (Or.inr (by with_unfolding_all rfl))

/- ------------------ Claim C1 ------------------ -/

theorem rowItem_subtotal
    {skuC descC qtyC yourC listC discC noteC catC startC endC : Option Cell}
    {lp : Option PyFloat} :
    (rowItem skuC descC qtyC yourC listC discC noteC catC startC endC lp).subtotal
      = (pricesOf (qtyOf qtyC) yourC listC discC).2 := rfl

theorem rowItem_unit_price
    {skuC descC qtyC yourC listC discC noteC catC startC endC : Option Cell}
    {lp : Option PyFloat} :
    (rowItem skuC descC qtyC yourC listC discC noteC catC startC endC lp).unit_price
      = (pricesOf (qtyOf qtyC) yourC listC discC).1 := rfl

/-- Claim C1: when the discount-price family column resolves and its cell
parses to a finite value `v`, and the derived qty is positive, the derived
item has `subtotal = v` and `unit_price = v / qty`. -/
theorem claim_C1_primary (cols : List String) (p : Picks) (r : List Cell)
    (cy : String) (v : ℚ) (it : Item)
    (hc : p.col_your = some cy)
    (hv : _num (dfGet cols r cy) = some (.fin v))
    (hit : deriveRow cols p r = .item it)
    (hq : 0 < it.qty) :
    it.subtotal = .fin v ∧ it.unit_price = .fin (v / (it.qty : ℚ)) := by
  obtain ⟨lp, hlp, hit'⟩ := deriveRowCore_item_eq hit
  subst hit'
  rw [rowItem_qty] at hq ⊢
  rw [rowItem_subtotal, rowItem_unit_price]
  rw [hc]
  simp only [Option.map_some']
  unfold pricesOf
  simp only [hv]
  constructor
  · simp
  · rw [if_pos (Nat.pos_iff_ne_zero.mp hq)]
    rfl

/-- Witness for C1: a row with qty 2 and discount-price cell `"$3,000"`
derives subtotal 3000 and unit price 1500. -/
theorem claim_C1_primary_witness :
    (⟨"A", 2, "", some (.fin 3000), .fin 1500, .fin 3000, "", "", "", ""⟩ : Item).subtotal
        = .fin 3000 ∧
    (⟨"A", 2, "", some (.fin 3000), .fin 1500, .fin 3000, "", "", "", ""⟩ : Item).unit_price
        = .fin (3000 / ((2 : ℕ) : ℚ)) :=
  claim_C1_primary ["sku", "qty", "your price"] (mkPicks ["sku", "qty", "your price"])
    [Cell.str "A", Cell.num 2, Cell.str "$3,000"] "your price" 3000
    ⟨"A", 2, "", some (.fin 3000), .fin 1500, .fin 3000, "", "", "", ""⟩
    rfl (by with_unfolding_all rfl) (by with_unfolding_all rfl) (by norm_num)

/- ------------------ Claim C8 ------------------ -/

theorem contains_append_singleton (acc : List String) (c y : String) :
    (!((acc ++ [c]).contains y)) = (decide (y ≠ c) && !(acc.contains y)) := by
  induction acc with
  | nil => by_cases hy : y = c <;> simp [hy, List.contains_cons]
  | cons a l ih =>
    simp only [List.cons_append, List.contains_cons, Bool.not_or, ih]
    cases h : (y == a) <;> simp [Bool.and_comm, Bool.and_assoc, Bool.and_left_comm]

/-- First-seen deduplication, the specified order of the category groups:
keep each element at its first occurrence. -/
def dedupFirstSeen : List String → List String
  | [] => []
  | x :: xs => x :: dedupFirstSeen (xs.filter (fun y => y ≠ x))
termination_by l => l.length
decreasing_by
  simp only [List.length_cons]
  exact Nat.lt_succ_of_le (List.length_filter_le _ _)

theorem foldl_firstSeen (l : List String) :
    ∀ acc, l.foldl (fun acc c => if acc.contains c then acc else acc ++ [c]) acc
      = acc ++ dedupFirstSeen (l.filter (fun c => !(acc.contains c))) := by
  induction l with
  | nil => intro acc; simp [dedupFirstSeen]
  | cons c l ih =>
    intro acc
    rw [List.foldl_cons]
    by_cases hc : acc.contains c = true
    · rw [if_pos hc, ih, List.filter_cons]
      have hm : c ∈ acc := by simpa using hc
      simp [hm, hc]
    · have hcf : acc.contains c = false := by simpa using hc
      rw [if_neg hc, ih, List.filter_cons]
      simp only [hcf, Bool.not_false, if_pos]
      rw [dedupFirstSeen, List.filter_filter]
      have hfil : l.filter (fun y => !((acc ++ [c]).contains y))
          = l.filter (fun y => decide (y ≠ c) && !(acc.contains y)) :=
        List.filter_congr (fun y _ => contains_append_singleton acc c y)
      rw [hfil, List.append_assoc]
      rfl

theorem orderedCategories_eq (items : List Item) :
    orderedCategories items
      = dedupFirstSeen (items.map (fun it => catName it.category)) := by
  have h1 : orderedCategories items
      = items.foldl
          (fun acc it =>
            if acc.contains (catName it.category) then acc
            else acc ++ [catName it.category]) [] := rfl
  have h2 : (items.map (fun it => catName it.category)).foldl
        (fun acc c => if acc.contains c then acc else acc ++ [c]) []
      = items.foldl
          (fun acc it =>
            if acc.contains (catName it.category) then acc
            else acc ++ [catName it.category]) [] :=
    List.foldl_map _ _ _ _
  rw [h1, ← h2, foldl_firstSeen]
  have h3 : (items.map (fun it => catName it.category)).filter
        (fun c => !(List.contains [] c))
      = items.map (fun it => catName it.category) :=
    List.filter_congr (fun y _ => rfl) |>.trans (List.filter_true _)
  rw [h3, List.nil_append]

theorem addToGroup_map_category (gs : List Group) (c : String) (it : Item) :
    (addToGroup gs c it).map Group.category = gs.map Group.category := by
  unfold addToGroup
  rw [List.map_map]
  exact List.map_congr_left (fun g _ => by by_cases h : g.category = c <;> simp [h])

theorem items_by_category_map_category (items : List Item) :
    (items_by_category items).map Group.category = orderedCategories items := by
  have hfold : ∀ (l : List Item) (gs : List Group),
      ((l.foldl (fun gs it => addToGroup gs (catName it.category) it) gs).map
          Group.category)
        = gs.map Group.category := by
    intro l
    induction l with
    | nil => intro gs; rfl
    | cons it l ih =>
      intro gs
      rw [List.foldl_cons, ih, addToGroup_map_category]
  unfold items_by_category
  rw [hfold, List.map_map]
  have : (Group.category ∘ fun c : String => (⟨c, [], .fin 0⟩ : Group)) = id := rfl
  rw [this, List.map_id]

/-- Claim C8: the category groups appear in the order each distinct category
first appears among the items, a blank (or all-whitespace) item category
counting as `"Uncategorized"`; in particular item categories
`["B", "A", "B"]` produce groups in order `["B", "A"]`. -/
theorem claim_C8_grouping :
    (∀ items : List Item,
      (items_by_category items).map Group.category
        = dedupFirstSeen (items.map (fun it =>
            if strTrim it.category = "" then "Uncategorized" else strTrim it.category))) ∧
    (items_by_category
        [⟨"s", 1, "d", none, .fin 0, .fin 0, "", "B", "", ""⟩,
         ⟨"s", 1, "d", none, .fin 0, .fin 0, "", "A", "", ""⟩,
         ⟨"s", 1, "d", none, .fin 0, .fin 0, "", "B", "", ""⟩]).map Group.category
      = ["B", "A"] := by
  constructor
  · intro items
    rw [items_by_category_map_category, orderedCategories_eq]
    rfl
  · with_unfolding_all rfl

/- ------------------ Claim C3 ------------------ -/

/-- The rational carried by a finite float (0 for NaN; only used under
no-NaN hypotheses). -/
def qval : PyFloat → ℚ
  | .fin q => q
  | .nan => 0

theorem foldl_pyAdd_fin (l : List PyFloat) (h : ∀ x ∈ l, x ≠ .nan) :
    ∀ a : ℚ, l.foldl pyAdd (.fin a) = .fin (a + (l.map qval).sum) := by
  induction l with
  | nil => intro a; simp
  | cons x l ih =>
    intro a
    obtain ⟨q, rfl⟩ : ∃ q, x = .fin q := by
      cases x with
      | fin q => exact ⟨q, rfl⟩
      | nan => exact absurd rfl (h _ (List.mem_cons_self _ _))
    rw [List.foldl_cons]
    have hx : pyAdd (.fin a) (.fin q) = .fin (a + q) := rfl
    rw [hx, ih (fun y hy => h y (List.mem_cons_of_mem _ hy))]
    simp [qval, add_assoc]

theorem pySum_all_fin (l : List PyFloat) (h : ∀ x ∈ l, x ≠ .nan) :
    pySum l = .fin ((l.map qval).sum) := by
  have := foldl_pyAdd_fin l h 0
  rw [pySum, this, zero_add]

theorem filterMap_finPart_all_fin (l : List PyFloat) (h : ∀ x ∈ l, x ≠ .nan) :
    l.filterMap finPart = l.map qval := by
  induction l with
  | nil => rfl
  | cons x l ih =>
    obtain ⟨q, rfl⟩ : ∃ q, x = .fin q := by
      cases x with
      | fin q => exact ⟨q, rfl⟩
      | nan => exact absurd rfl (h _ (List.mem_cons_self _ _))
    simp only [List.filterMap_cons, List.map_cons, finPart, qval]
    rw [ih (fun y hy => h y (List.mem_cons_of_mem _ hy))]

theorem bom_total_eq_nansum (items : List Item) :
    bom_total items = nansum (items.map Item.subtotal) := by
  cases items with
  | nil => rfl
  | cons it items => rfl

theorem mem_dedupFirstSeen_of_mem (l : List String) (y : String) :
    y ∈ l → y ∈ dedupFirstSeen l := by
  induction l using dedupFirstSeen.induct with
  | case1 => intro h; cases h
  | case2 x xs ih =>
    intro h
    rw [dedupFirstSeen]
    rcases List.mem_cons.mp h with rfl | hmem
    · exact List.mem_cons_self _ _
    · by_cases hxy : y = x
      · subst hxy; exact List.mem_cons_self _ _
      · exact List.mem_cons_of_mem _
          (ih (List.mem_filter.mpr ⟨hmem, by simpa using hxy⟩))

theorem mem_of_dedupFirstSeen (l : List String) (y : String) :
    y ∈ dedupFirstSeen l → y ∈ l := by
  induction l using dedupFirstSeen.induct with
  | case1 => intro h; simp [dedupFirstSeen] at h
  | case2 x xs ih =>
    intro h
    rw [dedupFirstSeen] at h
    rcases List.mem_cons.mp h with rfl | hmem
    · exact List.mem_cons_self _ _
    · exact List.mem_cons_of_mem _ (List.mem_filter.mp (ih hmem)).1

theorem dedupFirstSeen_nodup (l : List String) : (dedupFirstSeen l).Nodup := by
  induction l using dedupFirstSeen.induct with
  | case1 => simp [dedupFirstSeen]
  | case2 x xs ih =>
    rw [dedupFirstSeen]
    refine List.nodup_cons.mpr ⟨?_, ih⟩
    intro hx
    have hmem := (List.mem_filter.mp (mem_of_dedupFirstSeen _ _ hx)).2
    simp at hmem

theorem addToGroup_not_mem (gs : List Group) (c : String) (it : Item)
    (h : ∀ g ∈ gs, g.category ≠ c) : addToGroup gs c it = gs := by
  unfold addToGroup
  rw [List.map_congr_left (fun g hg => if_neg (h g hg))]
  simp

theorem addToGroup_qsum (c : String) (it : Item) (hi : it.subtotal ≠ .nan) :
    ∀ gs : List Group, (gs.map Group.category).Nodup →
      c ∈ gs.map Group.category → (∀ g ∈ gs, g.subtotal ≠ .nan) →
      (((addToGroup gs c it).map (fun g => qval g.subtotal)).sum
        = (gs.map (fun g => qval g.subtotal)).sum + qval it.subtotal) ∧
      (∀ g ∈ addToGroup gs c it, g.subtotal ≠ .nan) := by
  intro gs
  induction gs with
  | nil => intro _ hmem _; simp at hmem
  | cons g0 gs ih =>
    intro hnd hmem hg
    obtain ⟨b, hb⟩ : ∃ b, it.subtotal = .fin b := by
      cases hsb : it.subtotal with
      | fin b => exact ⟨b, rfl⟩
      | nan => exact absurd hsb hi
    have hcons : addToGroup (g0 :: gs) c it
        = (if g0.category = c then
            (⟨g0.category, g0.items ++ [it],
              pyAdd g0.subtotal (pyOrZero it.subtotal)⟩ : Group)
           else g0) :: addToGroup gs c it := rfl
    have hnd0 : g0.category ∉ gs.map Group.category :=
      (List.nodup_cons.mp (by simpa using hnd)).1
    have hnd' : (gs.map Group.category).Nodup :=
      (List.nodup_cons.mp (by simpa using hnd)).2
    have hg' : ∀ g ∈ gs, g.subtotal ≠ .nan :=
      fun g hgm => hg g (List.mem_cons_of_mem _ hgm)
    obtain ⟨a, ha⟩ : ∃ a, g0.subtotal = .fin a := by
      cases hsa : g0.subtotal with
      | fin a => exact ⟨a, rfl⟩
      | nan => exact absurd hsa (hg g0 (List.mem_cons_self _ _))
    by_cases hcat : g0.category = c
    · have hnotin : ∀ g ∈ gs, g.category ≠ c := by
        intro g hgm hcc
        exact hnd0 (hcat ▸ hcc ▸ List.mem_map_of_mem Group.category hgm)
      rw [hcons, if_pos hcat, addToGroup_not_mem gs c it hnotin]
      constructor
      · simp only [List.map_cons, List.sum_cons, ha, hb, pyOrZero, pyAdd, qval]
        ring
      · intro g hgm
        rcases List.mem_cons.mp hgm with rfl | hgm
        · simp [ha, hb, pyOrZero, pyAdd]
        · exact hg g (List.mem_cons_of_mem _ hgm)
    · have hmem' : c ∈ gs.map Group.category := by
        have hmem2 : c ∈ Group.category g0 :: gs.map Group.category := by
          simpa only [List.map_cons] using hmem
        rcases List.mem_cons.mp hmem2 with h | h
        · exact absurd h.symm hcat
        · exact h
      obtain ⟨hsum, hfin⟩ := ih hnd' hmem' hg'
      rw [hcons, if_neg hcat]
      constructor
      · simp only [List.map_cons, List.sum_cons, hsum]; ring
      · intro g hgm
        rcases List.mem_cons.mp hgm with rfl | hgm
        · exact hg g (List.mem_cons_self _ _)
        · exact hfin g hgm

theorem fold_groups_qsum (items : List Item) :
    ∀ gs : List Group, (∀ it ∈ items, it.subtotal ≠ .nan) →
      (gs.map Group.category).Nodup →
      (∀ it ∈ items, catName it.category ∈ gs.map Group.category) →
      (∀ g ∈ gs, g.subtotal ≠ .nan) →
      (((items.foldl (fun gs it => addToGroup gs (catName it.category) it) gs).map
          (fun g => qval g.subtotal)).sum
        = (gs.map (fun g => qval g.subtotal)).sum
          + (items.map (fun it => qval it.subtotal)).sum) ∧
      (∀ g ∈ items.foldl (fun gs it => addToGroup gs (catName it.category) it) gs,
        g.subtotal ≠ .nan) := by
  induction items with
  | nil => intro gs _ _ _ hg; exact ⟨by simp, hg⟩
  | cons it items ih =>
    intro gs hits hnd hmem hg
    have h1 := addToGroup_qsum (catName it.category) it
      (hits it (List.mem_cons_self _ _)) gs hnd (hmem it (List.mem_cons_self _ _)) hg
    have hnd' : ((addToGroup gs (catName it.category) it).map Group.category).Nodup := by
      rw [addToGroup_map_category]; exact hnd
    have hmem' : ∀ x ∈ items,
        catName x.category ∈ (addToGroup gs (catName it.category) it).map Group.category := by
      intro x hx; rw [addToGroup_map_category]
      exact hmem x (List.mem_cons_of_mem _ hx)
    have hits' : ∀ x ∈ items, x.subtotal ≠ .nan :=
      fun x hx => hits x (List.mem_cons_of_mem _ hx)
    obtain ⟨hsum, hfin⟩ := ih (addToGroup gs (catName it.category) it) hits' hnd' hmem' h1.2
    constructor
    · rw [List.foldl_cons, hsum, h1.1]
      simp only [List.map_cons, List.sum_cons]
      ring
    · rw [List.foldl_cons]
      exact hfin

/-- Claim C3 (amended): when no item subtotal is NaN, the grand total (the
NaN-skipping `nansum` over item subtotals) equals the sum of the per-category
group subtotals and equals the plain sum of the per-item subtotals; the group
accumulation itself is not NaN-tolerant, so the equality can fail when a
subtotal is NaN. -/
theorem claim_C3_totals (items : List Item)
    (h : ∀ it ∈ items, it.subtotal ≠ .nan) :
    bom_total items = pySum ((items_by_category items).map Group.subtotal) ∧
    bom_total items = pySum (items.map Item.subtotal) := by
  have hno : ∀ x ∈ items.map Item.subtotal, x ≠ .nan := by
    intro x hx
    obtain ⟨it, hit, rfl⟩ := List.mem_map.mp hx
    exact h it hit
  have h2 : bom_total items = pySum (items.map Item.subtotal) := by
    rw [bom_total_eq_nansum, pySum_all_fin _ hno, nansum, filterMap_finPart_all_fin _ hno]
  refine ⟨?_, h2⟩
  have hcat0 : ((orderedCategories items).map
        (fun c => (⟨c, [], .fin 0⟩ : Group))).map Group.category
      = orderedCategories items := by
    rw [List.map_map]
    have hco : (Group.category ∘ fun c : String => (⟨c, [], .fin 0⟩ : Group)) = id := rfl
    rw [hco, List.map_id]
  have hnd0 : (((orderedCategories items).map
        (fun c => (⟨c, [], .fin 0⟩ : Group))).map Group.category).Nodup := by
    rw [hcat0, orderedCategories_eq]
    exact dedupFirstSeen_nodup _
  have hg0 : ∀ g ∈ (orderedCategories items).map (fun c => (⟨c, [], .fin 0⟩ : Group)),
      g.subtotal ≠ .nan := by
    intro g hgm
    obtain ⟨cc, _, rfl⟩ := List.mem_map.mp hgm
    simp
  have hmem0 : ∀ it ∈ items, catName it.category
      ∈ ((orderedCategories items).map (fun c => (⟨c, [], .fin 0⟩ : Group))).map
          Group.category := by
    intro it hit
    rw [hcat0, orderedCategories_eq]
    exact mem_dedupFirstSeen_of_mem _ _
      (List.mem_map_of_mem (fun it => catName it.category) hit)
  obtain ⟨hsum, hfin⟩ := fold_groups_qsum items
    ((orderedCategories items).map (fun c => (⟨c, [], .fin 0⟩ : Group)))
    h hnd0 hmem0 hg0
  have hone : items_by_category items
      = items.foldl (fun gs it => addToGroup gs (catName it.category) it)
          ((orderedCategories items).map (fun c => (⟨c, [], .fin 0⟩ : Group))) := rfl
  have hfin' : ∀ x ∈ (items_by_category items).map Group.subtotal, x ≠ .nan := by
    intro x hx
    obtain ⟨g, hgm, rfl⟩ := List.mem_map.mp hx
    rw [hone] at hgm
    exact hfin g hgm
  rw [pySum_all_fin _ hfin', List.map_map, hone]
  have hz : (((orderedCategories items).map (fun c => (⟨c, [], .fin 0⟩ : Group))).map
      (fun g => qval g.subtotal)).sum = 0 := by
    rw [List.map_map]
    have : ((fun g : Group => qval g.subtotal) ∘ fun c : String => (⟨c, [], .fin 0⟩ : Group))
        = fun _ => (0 : ℚ) := rfl
    rw [this]
    simp
  have hcomp : ((fun g : Group => qval g.subtotal) : Group → ℚ)
      = (qval ∘ Group.subtotal) := rfl
  rw [← hcomp, hsum, hz, zero_add, h2, pySum_all_fin _ hno, List.map_map]
  rfl

def c3_df : DF :=
  ⟨["description", "price"], [[Cell.str "A", Cell.nan], [Cell.str "B", Cell.num 5]]⟩

def c3_itemA : Item := ⟨"", 1, "A", none, .nan, .nan, "", "", "", ""⟩

def c3_itemB : Item := ⟨"", 1, "B", some (.fin 5), .fin 5, .fin 5, "", "", "", ""⟩

/-- Counterexample for C3 as stated: with one NaN subtotal the grand total
(nansum, which skips the NaN) differs from the sum of the group subtotals
(whose accumulation propagates the NaN). -/
theorem claim_C3_counterexample :
    parse_items c3_df = .ok [c3_itemA, c3_itemB] ∧
    c3_itemA.subtotal = .nan ∧
    bom_total [c3_itemA, c3_itemB]
      ≠ pySum ((items_by_category [c3_itemA, c3_itemB]).map Group.subtotal) :=
  ⟨by with_unfolding_all rfl, rfl, by with_unfolding_all decide⟩

/-- Witness for C3: on a NaN-free item list the grand total, the group-sum
total, and the item-sum total coincide. -/
theorem claim_C3_totals_witness :
    bom_total [c3_itemB] = pySum ((items_by_category [c3_itemB]).map Group.subtotal) ∧
    bom_total [c3_itemB] = pySum ([c3_itemB].map Item.subtotal) :=
  claim_C3_totals [c3_itemB]
    (by
      intro it hit
      rcases List.mem_cons.mp hit with rfl | hit
      · decide
      · cases hit)

/- ------------------ Claim C9 ------------------ -/

/-- Rows that agree outside the column labelled `e` produce the same
label-based lookups at every other label. -/
theorem dfGet_agree (e : String) :
    ∀ (ncols : List String) (ra rb : List Cell),
      (∀ q ∈ ncols.zip (ra.zip rb), q.1 = e ∨ q.2.1 = q.2.2) →
      ra.length = ncols.length → rb.length = ncols.length →
      ∀ c, c ≠ e → dfGet ncols ra c = dfGet ncols rb c := by
  intro ncols
  induction ncols with
  | nil => intro ra rb _ _ _ c _; rfl
  | cons c0 cs ih =>
    intro ra rb hagree hla hlb c hc
    cases ra with
    | nil => simp at hla
    | cons a ra2 =>
      cases rb with
      | nil => simp at hlb
      | cons b rb2 =>
        have hhead : c0 = e ∨ a = b := hagree (c0, a, b) (List.mem_cons_self _ _)
        unfold dfGet
        by_cases hcc : c0 = c
        · rcases hhead with he | hab
          · exact absurd (hcc ▸ he) hc
          · rw [if_pos hcc, if_pos hcc, hab]
        · rw [if_neg hcc, if_neg hcc]
          exact ih ra2 rb2 (fun q hq => hagree q (List.mem_cons_of_mem _ hq))
            (by simpa using hla) (by simpa using hlb) c hc

/-- A non-missing cell outside column `e` on one side transfers to the other
side of an off-`e` agreeing pair of rows. -/
theorem row_nonna_transfer (e : String) :
    ∀ (ncols : List String) (ra rb : List Cell),
      (∀ q ∈ ncols.zip (ra.zip rb), q.1 = e ∨ q.2.1 = q.2.2) →
      ra.length = ncols.length → rb.length = ncols.length →
      (∃ q ∈ ncols.zip ra, q.1 ≠ e ∧ isNA q.2 = false) →
      (∃ q ∈ ncols.zip rb, q.1 ≠ e ∧ isNA q.2 = false) := by
  intro ncols
  induction ncols with
  | nil => intro ra rb _ _ _ hex; simp at hex
  | cons c0 cs ih =>
    intro ra rb hagree hla hlb hex
    cases ra with
    | nil => simp at hla
    | cons a ra2 =>
      cases rb with
      | nil => simp at hlb
      | cons b rb2 =>
        have hhead : c0 = e ∨ a = b := hagree (c0, a, b) (List.mem_cons_self _ _)
        obtain ⟨q, hq, hqe, hqna⟩ := hex
        rcases List.mem_cons.mp hq with rfl | hq2
        · rcases hhead with he | hab
          · exact absurd he hqe
          · exact ⟨(c0, b), List.mem_cons_self _ _, hqe, hab ▸ hqna⟩
        · obtain ⟨q2, hq2m, hq2e, hq2na⟩ :=
            ih ra2 rb2 (fun q hqq => hagree q (List.mem_cons_of_mem _ hqq))
              (by simpa using hla) (by simpa using hlb) ⟨q, hq2, hqe, hqna⟩
          exact ⟨q2, List.mem_cons_of_mem _ hq2m, hq2e, hq2na⟩

theorem zip_right_mem {α β : Type} :
    ∀ (l1 : List α) (l2 : List β), l1.length = l2.length →
      ∀ b ∈ l2, ∃ a, (a, b) ∈ l1.zip l2 := by
  intro l1
  induction l1 with
  | nil => intro l2 hlen b hb; cases l2 with
    | nil => cases hb
    | cons x l2 => simp at hlen
  | cons a l1 ih =>
    intro l2 hlen b hb
    cases l2 with
    | nil => cases hb
    | cons x l2 =>
      rcases List.mem_cons.mp hb with rfl | hb2
      · exact ⟨a, List.mem_cons_self _ _⟩
      · obtain ⟨a2, ha2⟩ := ih l2 (by simpa using hlen) b hb2
        exact ⟨a2, List.mem_cons_of_mem _ ha2⟩

/-- A row with a non-missing cell is kept by `dropna(how="all")`. -/
theorem row_kept (r : List Cell) (ncols : List String) (e : String)
    (hex : ∃ q ∈ ncols.zip r, q.1 ≠ e ∧ isNA q.2 = false) :
    (!(r.all isNA)) = true := by
  obtain ⟨q, hq, _, hqna⟩ := hex
  have hmem : q.2 ∈ r := by
    obtain ⟨c, x⟩ := q
    exact (List.of_mem_zip hq).2
  cases hall : r.all isNA with
  | false => rfl
  | true => exact absurd (List.all_eq_true.mp hall q.2 hmem) (by simp [hqna])

/-- When the dropna filter keeps every row, `parse_items` is the plain fold
over all rows of the header-normalised frame. -/
theorem parse_items_keep (cols : List String) (rows : List (List Cell))
    (hkeep : rows.filter (fun r => !(r.all isNA)) = rows) :
    parse_items ⟨cols, rows⟩
      = (if rows.isEmpty then .ok []
         else rows.foldl
              (parseStep (cols.map normName) (mkPicks (cols.map normName))) (.ok [])) := by
  unfold parse_items dropna_all _norm_cols
  simp only [hkeep]

theorem foldl_parseStep_agree (cols : List String) (p : Picks) :
    ∀ (la lb : List (List Cell)), la.length = lb.length →
      (∀ pr ∈ la.zip lb, deriveRow cols p pr.1 = deriveRow cols p pr.2) →
      ∀ acc, la.foldl (parseStep cols p) acc = lb.foldl (parseStep cols p) acc := by
  intro la
  induction la with
  | nil => intro lb hlen _ acc; cases lb with
    | nil => rfl
    | cons rb lb => simp at hlen
  | cons ra la ih =>
    intro lb hlen hrow acc
    cases lb with
    | nil => simp at hlen
    | cons rb lb =>
      rw [List.foldl_cons, List.foldl_cons]
      have h0 : deriveRow cols p ra = deriveRow cols p rb :=
        hrow (ra, rb) (List.mem_cons_self _ _)
      have hstep : parseStep cols p acc ra = parseStep cols p acc rb := by
        unfold parseStep
        rw [h0]
      rw [hstep]
      exact ih lb (by simpa using hlen)
        (fun pr hpr => hrow pr (List.mem_cons_of_mem _ hpr)) _

/-- The row loop only consults the first column and the ten picked columns,
so rows agreeing at every other label derive identically. -/
theorem deriveRow_agree (ncols : List String) (p : Picks) (e : String)
    (ra rb : List Cell)
    (hfirst : ncols.headD "" ≠ e)
    (hsku : p.col_sku ≠ some e) (hqty : p.col_qty ≠ some e)
    (hdesc : p.col_desc ≠ some e) (hyour : p.col_your ≠ some e)
    (hlist : p.col_list ≠ some e) (hdisc : p.col_disc ≠ some e)
    (hstart : p.col_start ≠ some e) (hend : p.col_end ≠ some e)
    (hnote : p.col_note ≠ some e) (hcat : p.col_cat ≠ some e)
    (hget : ∀ c, c ≠ e → dfGet ncols ra c = dfGet ncols rb c) :
    deriveRow ncols p ra = deriveRow ncols p rb := by
  have hmap : ∀ co : Option String, co ≠ some e →
      co.map (dfGet ncols ra) = co.map (dfGet ncols rb) := by
    intro co hco
    cases co with
    | none => rfl
    | some c =>
      simp only [Option.map_some']
      rw [hget c (fun hh => hco (by rw [hh]))]
  unfold deriveRow
  rw [hget _ hfirst, hmap _ hsku, hmap _ hdesc, hmap _ hqty, hmap _ hyour,
    hmap _ hlist, hmap _ hdisc, hmap _ hnote, hmap _ hcat, hmap _ hstart,
    hmap _ hend]

/-- Claim C9 (amended): for two rectangular tables with the same headers that
differ only in the values of the column `e` the extended family resolves to,
`parse_items` produces identical item sequences provided `e` is not the first
column, is not the column resolved for any consulted field (sku, qty,
description, discount price, unit price, discount, notes, category, start
date, end date), and no row is missing everywhere outside `e`. -/
theorem claim_C9_noninterference
    (cols : List String) (rowsA rowsB : List (List Cell)) (e : String)
    (hext : _pick (cols.map normName) (extended_candidates.map strLower) = some e)
    (hfirst : (cols.map normName).headD "" ≠ e)
    (hsku : (mkPicks (cols.map normName)).col_sku ≠ some e)
    (hqty : (mkPicks (cols.map normName)).col_qty ≠ some e)
    (hdesc : (mkPicks (cols.map normName)).col_desc ≠ some e)
    (hyour : (mkPicks (cols.map normName)).col_your ≠ some e)
    (hlist : (mkPicks (cols.map normName)).col_list ≠ some e)
    (hdisc : (mkPicks (cols.map normName)).col_disc ≠ some e)
    (hstart : (mkPicks (cols.map normName)).col_start ≠ some e)
    (hend : (mkPicks (cols.map normName)).col_end ≠ some e)
    (hnote : (mkPicks (cols.map normName)).col_note ≠ some e)
    (hcat : (mkPicks (cols.map normName)).col_cat ≠ some e)
    (hlen : rowsA.length = rowsB.length)
    (hlenA : ∀ r ∈ rowsA, r.length = cols.length)
    (hlenB : ∀ r ∈ rowsB, r.length = cols.length)
    (hagree : ∀ pr ∈ rowsA.zip rowsB,
      ∀ q ∈ (cols.map normName).zip (pr.1.zip pr.2), q.1 = e ∨ q.2.1 = q.2.2)
    (hnonna : ∀ r ∈ rowsA,
      ∃ q ∈ (cols.map normName).zip r, q.1 ≠ e ∧ isNA q.2 = false) :
    parse_items ⟨cols, rowsA⟩ = parse_items ⟨cols, rowsB⟩ := by
  have hnlen : (cols.map normName).length = cols.length := List.length_map _ _
  have hnonnaB : ∀ r ∈ rowsB,
      ∃ q ∈ (cols.map normName).zip r, q.1 ≠ e ∧ isNA q.2 = false := by
    intro rb hrb
    obtain ⟨ra, hpr⟩ := zip_right_mem rowsA rowsB hlen rb hrb
    have hra : ra ∈ rowsA := (List.of_mem_zip hpr).1
    exact row_nonna_transfer e (cols.map normName) ra rb
      (hagree (ra, rb) hpr)
      ((hlenA ra hra).trans hnlen.symm)
      ((hlenB rb hrb).trans hnlen.symm)
      (hnonna ra hra)
  have hkeepA : rowsA.filter (fun r => !(r.all isNA)) = rowsA :=
    List.filter_eq_self.mpr (fun r hr => row_kept r (cols.map normName) e (hnonna r hr))
  have hkeepB : rowsB.filter (fun r => !(r.all isNA)) = rowsB :=
    List.filter_eq_self.mpr (fun r hr => row_kept r (cols.map normName) e (hnonnaB r hr))
  rw [parse_items_keep cols rowsA hkeepA, parse_items_keep cols rowsB hkeepB]
  have hemp : rowsA.isEmpty = rowsB.isEmpty := by
    cases rowsA <;> cases rowsB <;> simp_all
  rw [hemp]
  cases hB : rowsB.isEmpty with
  | true => rw [if_pos rfl, if_pos rfl]
  | false =>
    rw [if_neg (by simp), if_neg (by simp)]
    apply foldl_parseStep_agree _ _ rowsA rowsB hlen
    intro pr hpr
    have hra : pr.1 ∈ rowsA := (List.of_mem_zip (by exact hpr)).1
    have hrb : pr.2 ∈ rowsB := (List.of_mem_zip (by exact hpr)).2
    exact deriveRow_agree (cols.map normName) (mkPicks (cols.map normName)) e pr.1 pr.2
      hfirst hsku hqty hdesc hyour hlist hdisc hstart hend hnote hcat
      (dfGet_agree e (cols.map normName) pr.1 pr.2 (hagree pr hpr)
        ((hlenA pr.1 hra).trans hnlen.symm) ((hlenB pr.2 hrb).trans hnlen.symm))

def c9_dfA : DF := ⟨["sku", "extended"], [[Cell.str "A", Cell.num 5]]⟩

def c9_dfB : DF := ⟨["sku", "extended"], [[Cell.str "A", Cell.num 6]]⟩

/-- Counterexample for C9 as stated: the two tables share headers, agree on
the sku column, and differ only in the value of the resolved extended-family
column `"extended"`, yet the derived item sequences differ — the substring
`"end"` makes the extended column resolve for the end-date field, so its
values leak into `end_date`. -/
theorem claim_C9_counterexample :
    _pick (c9_dfA.cols.map normName) (extended_candidates.map strLower) = some "extended" ∧
    c9_dfA.cols = c9_dfB.cols ∧
    dfGet (c9_dfA.cols.map normName) [Cell.str "A", Cell.num 5] "sku"
      = dfGet (c9_dfB.cols.map normName) [Cell.str "A", Cell.num 6] "sku" ∧
    parse_items c9_dfA ≠ parse_items c9_dfB := by
  refine ⟨by decide, rfl, by decide, ?_⟩
  intro h
  have h5 : parse_items c9_dfA
      = .ok [⟨"A", 1, "", none, .fin 0, .fin 0, "", "", "", "1900-01-04"⟩] := by
    with_unfolding_all rfl
  have h6 : parse_items c9_dfB
      = .ok [⟨"A", 1, "", none, .fin 0, .fin 0, "", "", "", "1900-01-05"⟩] := by
    with_unfolding_all rfl
  rw [h5, h6] at h
  exact absurd (List.head_eq_of_cons_eq (Except.ok.inj h)) (by decide)

/-- Witness for C9: an extended-family column named `"subtotal"` resolves for
no consulted field; two tables differing only in its values parse to the same
items. -/
theorem claim_C9_noninterference_witness :
    parse_items ⟨["sku", "subtotal"], [[Cell.str "A", Cell.num 5]]⟩
      = parse_items ⟨["sku", "subtotal"], [[Cell.str "A", Cell.num 6]]⟩ :=
  claim_C9_noninterference ["sku", "subtotal"]
    [[Cell.str "A", Cell.num 5]] [[Cell.str "A", Cell.num 6]] "subtotal"
    (by decide) (by decide) (by decide) (by decide) (by decide) (by decide)
    (by decide) (by decide) (by decide) (by decide) (by decide) (by decide)
    rfl (by with_unfolding_all decide) (by with_unfolding_all decide)
    (by with_unfolding_all decide) (by with_unfolding_all decide)

end BOMSpitter
